import Mathlib

/-!
Shallow embedding of the verification orchestration core of the `verifier`
package (`src/verifier/verifier.go`): the `Verify` scheduler and the per-domain
`worker`, with the external collaborators (SMTP session, disposable checker,
gravatar checker, error classifiers) abstracted as oracles, matching the
collaborator contracts of the specification.

Modelling choices:
* Go `error` values exchanged with the collaborators are an inductive `GoErr`
  with the two identity-compared sentinels (`ErrNoSuchHost`, `ErrFullInbox`)
  as constructors and a generic constructor carrying the message text.
* The worker's two inner goroutines (deliverability probe, gravatar check)
  write disjoint locals and join (`g.Wait()`) before the Lookup is built, so
  they are modelled sequentially; collaborator-call events are recorded in a
  trace, serialising the two concurrent sub-calls in a fixed order (every
  property stated about traces is insensitive to that order).
* Go map iteration order is nondeterministic; the model groups domains in
  first-seen order.  All theorems stated about the output list are
  order-insensitive (membership, length, multiset).
* The blocked result drain that occurs when zero workers are started (the
  `for w := 1; w <= workers` loop starts no goroutine, so nothing ever feeds
  the `results` channel) is modelled by `Verify` returning `none`.
-/

namespace Trumail

/-- The parsed address record produced by the parsing collaborator
(`Address` with fields `Address`, `Username`, `Domain`). -/
structure Address where
  address : String
  username : String
  domain : String
deriving DecidableEq, Repr

/-- Go `error` values as seen by the worker: the two sentinel errors it
compares against by identity, plus generic errors carrying their text. -/
inductive GoErr where
  | noSuchHost
  | fullInbox
  | other (msg : String)
deriving DecidableEq, Repr

/-- Modelled from the spec: `errStr` is not under `src/`; per the output
contract, an absent error renders as the empty string and a present error as
its message text (string fields are omitted exactly when empty). -/
def errStr : Option GoErr → String
  | none => ""
  | some GoErr.noSuchHost => "no such host"
  | some GoErr.fullInbox => "full inbox"
  | some (GoErr.other msg) => msg

/-- Modelled from the spec: `parseSTDErr` (the connection/handshake-phase
classifier) is not under `src/`.  It recognises the well-known conditions and
maps any other failure to a generic summary plus the raw detail text. -/
def parseSTDErr (err : GoErr) : Option GoErr × Option GoErr :=
  match err with
  | GoErr.noSuchHost => (some GoErr.noSuchHost, some GoErr.noSuchHost)
  | GoErr.fullInbox => (some GoErr.fullInbox, some GoErr.fullInbox)
  | GoErr.other msg => (some (GoErr.other "unexpected response"), some (GoErr.other msg))

/-- Modelled from the spec: `parseRCPTErr` (the probe-phase classifier) is not
under `src/`.  Host-absence is classified to the `ErrNoSuchHost` sentinel;
the mailbox-full condition is demoted to a flag and yields no error pair
(the spec requires no error fields to be set for it); any other failure maps
to a generic summary plus the raw detail text. -/
def parseRCPTErr (err : GoErr) : Option GoErr × Option GoErr :=
  match err with
  | GoErr.noSuchHost => (some GoErr.noSuchHost, some GoErr.noSuchHost)
  | GoErr.fullInbox => (none, none)
  | GoErr.other msg => (some (GoErr.other "unexpected RCPT response"), some (GoErr.other msg))

/-- Output record of one validation (`Lookup`), sans the XML serialisation
tag, which carries no data. -/
structure Lookup where
  address : String
  username : String
  domain : String
  hostExists : Bool
  deliverable : Bool
  fullInbox : Bool
  catchAll : Bool
  disposable : Bool
  gravatar : Bool
  error : String
  errorDetails : String
deriving DecidableEq, Repr

/-- The worker's batch-scoped mutable variables that the per-address loop
reads and writes: `hostExists`, `basicErr`, `detailErr`. -/
structure BatchState where
  hostExists : Bool
  basicErr : Option GoErr
  detailErr : Option GoErr
deriving DecidableEq, Repr

/-- Behaviour of the collaborators for one domain: result of
`NewDeliverabler` (`none` means a session was obtained), of
`HasCatchAll(domain, 5)`, of `disposabler.IsDisposable(domain)`, of
`IsDeliverable(addr, 3)` per address string, and of `HasGravatar` per
address. -/
structure DomainOracle where
  connect : Option GoErr
  hasCatchAll : Bool
  isDisposable : Bool
  probe : String → Option GoErr
  gravatar : Address → Bool

/-- Collaborator calls observable from outside the core, recorded so that
call-count and ordering properties can be stated. -/
inductive Event where
  | openSession (domain : String)
  | closeSession (domain : String)
  | catchAllCheck (domain : String)
  | disposableCheck (domain : String)
  | probe (address : String)
  | gravatarCheck (address : String)
deriving DecidableEq, Repr

/-- One iteration of the deliverability goroutine's body for one address:
consumes the batch state, returns the updated state together with the
address-local `deliverable` and `fullInbox` flags.  Mirrors the
`g.Go` closure in `worker` line by line. -/
def probeStep (o : DomainOracle) (hasSession catchAll : Bool) (st : BatchState)
    (a : Address) : BatchState × Bool × Bool :=
  if catchAll then
    (st, true, false)
  else if hasSession then
    match o.probe a.address with
    | some e =>
      let fullInbox := e == GoErr.fullInbox
      let p := parseRCPTErr e
      if p.1 = some GoErr.noSuchHost then
        (⟨false, none, none⟩, false, fullInbox)
      else
        (⟨st.hostExists, p.1, p.2⟩, false, fullInbox)
    | none => (st, true, false)
  else
    (st, false, false)

/-- Construction of the `Lookup` literal sent to the results channel. -/
def mkLookup (a : Address) (st : BatchState)
    (deliverable fullInbox disposable catchAll gravatar : Bool) : Lookup :=
  { address := a.address
    username := a.username
    domain := a.domain
    hostExists := st.hostExists
    deliverable := deliverable
    fullInbox := fullInbox
    catchAll := catchAll
    disposable := disposable
    gravatar := gravatar
    error := errStr st.basicErr
    errorDetails := errStr st.detailErr }

/-- The worker's per-address loop (`for _, address := range j`), threading the
batch state and emitting one trace segment and one Lookup per address. -/
def runAddrs (o : DomainOracle) (hasSession catchAll disposable : Bool) :
    BatchState → List Address → List Event × List Lookup
  | _, [] => ([], [])
  | st, a :: rest =>
    let probeEvs : List Event :=
      if catchAll then [] else if hasSession then [Event.probe a.address] else []
    let r := probeStep o hasSession catchAll st a
    let lk := mkLookup a r.1 r.2.1 r.2.2 disposable catchAll (o.gravatar a)
    let tail := runAddrs o hasSession catchAll disposable r.1 rest
    (probeEvs ++ Event.gravatarCheck a.address :: tail.1, lk :: tail.2)

/-- The worker's session attempt and connection-failure classification:
returns the initial batch state (`hostExists`, `basicErr`, `detailErr`) and
whether a session (`deliverabler != nil`) was obtained. -/
def initState (o : DomainOracle) : BatchState × Bool :=
  match o.connect with
  | none => (⟨true, none, none⟩, true)
  | some e =>
    let p := parseSTDErr e
    if p.1 = some GoErr.noSuchHost then (⟨false, none, none⟩, false)
    else (⟨true, p.1, p.2⟩, false)

/-- One iteration of the worker's job loop on one domain batch: attempt the
session, classify a connection failure (demoting host-absence to the
`hostExists` flag), compute catch-all and disposable status once, run the
address loop, and close the session when one was obtained. -/
def runBatch (o : DomainOracle) (j : List Address) : List Event × List Lookup :=
  match j with
  | [] => ([], [])
  | a :: _ =>
    let dom := a.domain
    let hasSession := (initState o).2
    let catchAll := hasSession && o.hasCatchAll
    let disposable := o.isDisposable
    let r := runAddrs o hasSession catchAll disposable (initState o).1 j
    ([Event.openSession dom]
        ++ (if hasSession then [Event.catchAllCheck dom] else [])
        ++ [Event.disposableCheck dom]
        ++ r.1
        ++ (if hasSession then [Event.closeSession dom] else []),
      r.2)

/-- Appends an address to its domain's group, creating the group when the
domain is new (`domainQueue[address.Domain] = append(...)`). -/
def insertAddr : List (String × List Address) → Address → List (String × List Address)
  | [], a => [(a.domain, [a])]
  | (d, as) :: rest, a =>
    if d = a.domain then (d, as ++ [a]) :: rest
    else (d, as) :: insertAddr rest a

/-- The domain queue: a map from domain to the addresses sharing it, in
first-seen domain order (Go map iteration order is nondeterministic; every
theorem stated over the output is insensitive to the order chosen here). -/
def groupByDomain (addresses : List Address) : List (String × List Address) :=
  addresses.foldl insertAddr []

/-- The `Verify` entry point, returning the recorded collaborator trace
together with the drained lookups.  `none` models the blocked drain that
occurs when batches exist but zero workers were started. -/
def VerifyRun (oracles : String → DomainOracle) (maxWorkerCount : Nat)
    (addresses : List Address) : Option (List Event × List Lookup) :=
  let domainQueue := groupByDomain addresses
  if domainQueue.length = 0 then some ([], [])
  else
    let workers :=
      if domainQueue.length < maxWorkerCount then domainQueue.length
      else maxWorkerCount
    if workers = 0 then none
    else
      let runs := domainQueue.map fun p => runBatch (oracles p.1) p.2
      some ((runs.map Prod.fst).flatten, (runs.map Prod.snd).flatten)

/-- The lookups returned by `Verify` (`none` when the drain blocks). -/
def Verify (oracles : String → DomainOracle) (maxWorkerCount : Nat)
    (addresses : List Address) : Option (List Lookup) :=
  (VerifyRun oracles maxWorkerCount addresses).map Prod.snd

/-- How many worker goroutines the `for w := 1; w <= workers` loop starts. -/
def workersStarted (maxWorkerCount : Nat) (addresses : List Address) : Nat :=
  let domainQueue := groupByDomain addresses
  if domainQueue.length = 0 then 0
  else if domainQueue.length < maxWorkerCount then domainQueue.length
  else maxWorkerCount

/-- The number of distinct domains among the input addresses, stated
independently of the grouping function. -/
def distinctDomainCount (addresses : List Address) : Nat :=
  (addresses.map Address.domain).toFinset.card

/-- Recovers the input address identified by a Lookup. -/
def Lookup.toAddress (lk : Lookup) : Address :=
  ⟨lk.address, lk.username, lk.domain⟩

/-! ### Basic facts about the per-address loop -/

theorem probeStep_catchAll (o : DomainOracle) (hs : Bool) (st : BatchState) (a : Address) :
    probeStep o hs true st a = (st, true, false) := rfl

theorem probeStep_noSession (o : DomainOracle) (st : BatchState) (a : Address) :
    probeStep o false false st a = (st, false, false) := rfl

theorem probeStep_not_both (o : DomainOracle) (hs ca : Bool) (st : BatchState) (a : Address) :
    (probeStep o hs ca st a).2.1 = false ∨ (probeStep o hs ca st a).2.2 = false := by
  unfold probeStep
  cases ca with
  | true => exact Or.inr rfl
  | false =>
    cases hs with
    | false => exact Or.inl rfl
    | true =>
      simp only [if_neg, Bool.false_eq_true, false_and, reduceIte]
      cases hpr : o.probe a.address with
      | none => exact Or.inr rfl
      | some e =>
        simp only []
        split <;> exact Or.inl rfl

theorem runAddrs_length (o : DomainOracle) (hs ca disp : Bool) (st : BatchState)
    (j : List Address) : ((runAddrs o hs ca disp st j).2).length = j.length := by
  induction j generalizing st with
  | nil => rfl
  | cons a rest ih => simp [runAddrs, ih]

theorem runAddrs_toAddress (o : DomainOracle) (hs ca disp : Bool) (st : BatchState)
    (j : List Address) : ((runAddrs o hs ca disp st j).2).map Lookup.toAddress = j := by
  induction j generalizing st with
  | nil => rfl
  | cons a rest ih => simp [runAddrs, mkLookup, Lookup.toAddress, ih]

theorem runAddrs_fixed_fields (o : DomainOracle) (hs ca disp : Bool) (st : BatchState)
    (j : List Address) (lk : Lookup) (h : lk ∈ (runAddrs o hs ca disp st j).2) :
    lk.catchAll = ca ∧ lk.disposable = disp := by
  induction j generalizing st with
  | nil => simp [runAddrs] at h
  | cons a rest ih =>
    simp only [runAddrs, List.mem_cons] at h
    rcases h with h | h
    · subst h; exact ⟨rfl, rfl⟩
    · exact ih _ h

theorem runAddrs_catchAll_mem (o : DomainOracle) (hs disp : Bool) (st : BatchState)
    (j : List Address) (lk : Lookup) (h : lk ∈ (runAddrs o hs true disp st j).2) :
    lk.deliverable = true ∧ lk.fullInbox = false ∧ lk.hostExists = st.hostExists := by
  induction j generalizing st with
  | nil => simp [runAddrs] at h
  | cons a rest ih =>
    simp only [runAddrs, probeStep_catchAll, List.mem_cons] at h
    rcases h with h | h
    · subst h; exact ⟨rfl, rfl, rfl⟩
    · exact ih _ h

theorem runAddrs_noSession_mem (o : DomainOracle) (disp : Bool) (st : BatchState)
    (j : List Address) (lk : Lookup) (h : lk ∈ (runAddrs o false false disp st j).2) :
    lk.hostExists = st.hostExists ∧ lk.deliverable = false ∧ lk.fullInbox = false ∧
      lk.error = errStr st.basicErr ∧ lk.errorDetails = errStr st.detailErr := by
  induction j generalizing st with
  | nil => simp [runAddrs] at h
  | cons a rest ih =>
    simp only [runAddrs, probeStep_noSession, List.mem_cons] at h
    rcases h with h | h
    · subst h; exact ⟨rfl, rfl, rfl, rfl, rfl⟩
    · exact ih _ h

theorem runAddrs_not_both (o : DomainOracle) (hs ca disp : Bool) (st : BatchState)
    (j : List Address) (lk : Lookup) (h : lk ∈ (runAddrs o hs ca disp st j).2) :
    lk.deliverable = false ∨ lk.fullInbox = false := by
  induction j generalizing st with
  | nil => simp [runAddrs] at h
  | cons a rest ih =>
    simp only [runAddrs, List.mem_cons] at h
    rcases h with h | h
    · subst h
      rcases probeStep_not_both o hs ca st a with hd | hf
      · exact Or.inl hd
      · exact Or.inr hf
    · exact ih _ h

/-! ### Facts about one whole domain batch -/

theorem initState_connected (o : DomainOracle) (h : o.connect = none) :
    initState o = (⟨true, none, none⟩, true) := by
  simp [initState, h]

theorem initState_hostAbsent (o : DomainOracle) (e : GoErr) (h : o.connect = some e)
    (hcls : (parseSTDErr e).1 = some GoErr.noSuchHost) :
    initState o = (⟨false, none, none⟩, false) := by
  simp [initState, h, hcls]

theorem runBatch_lookups (o : DomainOracle) (a : Address) (rest : List Address) :
    (runBatch o (a :: rest)).2 =
      (runAddrs o (initState o).2 ((initState o).2 && o.hasCatchAll) o.isDisposable
        (initState o).1 (a :: rest)).2 := rfl

theorem runBatch_toAddress (o : DomainOracle) (j : List Address) :
    ((runBatch o j).2).map Lookup.toAddress = j := by
  cases j with
  | nil => rfl
  | cons a rest => rw [runBatch_lookups, runAddrs_toAddress]

theorem runBatch_mem_domain (o : DomainOracle) (j : List Address) (lk : Lookup)
    (h : lk ∈ (runBatch o j).2) : lk.toAddress ∈ j := by
  rw [← runBatch_toAddress o j]
  exact List.mem_map_of_mem _ h

theorem runBatch_catchAll_deliverable (o : DomainOracle) (j : List Address) (lk : Lookup)
    (h : lk ∈ (runBatch o j).2) (hca : lk.catchAll = true) : lk.deliverable = true := by
  cases j with
  | nil => simp [runBatch] at h
  | cons a rest =>
    rw [runBatch_lookups] at h
    cases hflag : (initState o).2 && o.hasCatchAll with
    | true =>
      rw [hflag] at h
      exact (runAddrs_catchAll_mem o _ _ _ _ lk h).1
    | false =>
      rw [hflag] at h
      have := (runAddrs_fixed_fields o _ _ _ _ _ lk h).1
      rw [hca] at this
      exact absurd this.symm (by simp)

theorem runBatch_not_both (o : DomainOracle) (j : List Address) (lk : Lookup)
    (h : lk ∈ (runBatch o j).2) : lk.deliverable = false ∨ lk.fullInbox = false := by
  cases j with
  | nil => simp [runBatch] at h
  | cons a rest =>
    rw [runBatch_lookups] at h
    exact runAddrs_not_both o _ _ _ _ _ lk h

theorem runBatch_catchAll_hostExists (o : DomainOracle) (j : List Address) (lk : Lookup)
    (h : lk ∈ (runBatch o j).2) (hca : lk.catchAll = true) : lk.hostExists = true := by
  cases j with
  | nil => simp [runBatch] at h
  | cons a rest =>
    rw [runBatch_lookups] at h
    cases hflag : (initState o).2 && o.hasCatchAll with
    | true =>
      rw [hflag] at h
      have hsess : (initState o).2 = true := by
        rcases Bool.and_eq_true_iff.mp hflag with ⟨h1, _⟩
        exact h1
      have hconn : o.connect = none := by
        cases hc : o.connect with
        | none => rfl
        | some e =>
          exfalso
          unfold initState at hsess
          rw [hc] at hsess
          simp only [] at hsess
          split at hsess <;> simp at hsess
      have hinit := initState_connected o hconn
      have := (runAddrs_catchAll_mem o _ _ _ _ lk h).2.2
      rw [this, hinit]
    | false =>
      rw [hflag] at h
      have := (runAddrs_fixed_fields o _ _ _ _ _ lk h).1
      rw [hca] at this
      exact absurd this.symm (by simp)

theorem runBatch_hostAbsentOpen (o : DomainOracle) (e : GoErr) (j : List Address) (lk : Lookup)
    (hc : o.connect = some e) (hcls : (parseSTDErr e).1 = some GoErr.noSuchHost)
    (h : lk ∈ (runBatch o j).2) :
    lk.hostExists = false ∧ lk.deliverable = false ∧ lk.fullInbox = false ∧
      lk.catchAll = false ∧ lk.error = "" ∧ lk.errorDetails = "" := by
  cases j with
  | nil => simp [runBatch] at h
  | cons a rest =>
    rw [runBatch_lookups, initState_hostAbsent o e hc hcls] at h
    simp only [Bool.false_and] at h
    have hca := (runAddrs_fixed_fields o _ _ _ _ _ lk h).1
    have := runAddrs_noSession_mem o _ _ _ lk h
    exact ⟨this.1, this.2.1, this.2.2.1, hca, this.2.2.2.1, this.2.2.2.2⟩

/-! ### Facts about the domain grouping -/

theorem insertAddr_ne_nil (acc : List (String × List Address)) (a : Address) :
    insertAddr acc a ≠ [] := by
  cases acc with
  | nil => simp [insertAddr]
  | cons p rest =>
    obtain ⟨d, as⟩ := p
    simp only [insertAddr]
    split <;> simp

theorem foldl_insertAddr_ne_nil (l : List Address) (acc : List (String × List Address))
    (h : acc ≠ []) : l.foldl insertAddr acc ≠ [] := by
  induction l generalizing acc with
  | nil => exact h
  | cons a rest ih => exact ih _ (insertAddr_ne_nil acc a)

theorem groupByDomain_eq_nil_iff (addrs : List Address) :
    groupByDomain addrs = [] ↔ addrs = [] := by
  constructor
  · intro h
    cases addrs with
    | nil => rfl
    | cons a rest =>
      exact absurd h
        (foldl_insertAddr_ne_nil rest (insertAddr [] a) (insertAddr_ne_nil [] a))
  · intro h; subst h; rfl

theorem insertAddr_domains (acc : List (String × List Address)) (a : Address)
    (h : ∀ p ∈ acc, ∀ b ∈ p.2, b.domain = p.1) :
    ∀ p ∈ insertAddr acc a, ∀ b ∈ p.2, b.domain = p.1 := by
  induction acc with
  | nil =>
    intro p hp b hb
    simp only [insertAddr, List.mem_singleton] at hp
    subst hp
    simp only [List.mem_singleton] at hb
    subst hb
    rfl
  | cons q rest ih =>
    obtain ⟨d, as⟩ := q
    intro p hp b hb
    simp only [insertAddr] at hp
    split at hp
    · next hd =>
      rcases List.mem_cons.mp hp with hp | hp
      · subst hp
        simp only [List.mem_append, List.mem_singleton] at hb
        rcases hb with hb | hb
        · exact h (d, as) (List.mem_cons_self _ _) b hb
        · subst hb; exact hd.symm
      · exact h p (List.mem_cons_of_mem _ hp) b hb
    · next hd =>
      rcases List.mem_cons.mp hp with hp | hp
      · subst hp
        exact h (d, as) (List.mem_cons_self _ _) b hb
      · exact ih (fun q hq => h q (List.mem_cons_of_mem _ hq)) p hp b hb

theorem groupByDomain_domains (addrs : List Address) :
    ∀ p ∈ groupByDomain addrs, ∀ b ∈ p.2, b.domain = p.1 := by
  suffices h : ∀ (l : List Address) (acc : List (String × List Address)),
      (∀ p ∈ acc, ∀ b ∈ p.2, b.domain = p.1) →
      ∀ p ∈ l.foldl insertAddr acc, ∀ b ∈ p.2, b.domain = p.1 by
    exact h addrs [] (by simp)
  intro l
  induction l with
  | nil => intro acc hacc; exact hacc
  | cons a rest ih =>
    intro acc hacc
    exact ih _ (insertAddr_domains acc a hacc)

theorem insertAddr_flatten_perm (acc : List (String × List Address)) (a : Address) :
    ((insertAddr acc a).map Prod.snd).flatten.Perm ((acc.map Prod.snd).flatten ++ [a]) := by
  induction acc with
  | nil => simp [insertAddr]
  | cons q rest ih =>
    obtain ⟨d, as⟩ := q
    simp only [insertAddr]
    split
    · simp only [List.map_cons, List.flatten_cons, List.append_assoc]
      exact List.Perm.append_left as List.perm_append_comm
    · simp only [List.map_cons, List.flatten_cons, List.append_assoc]
      exact List.Perm.append_left as ih

theorem groupByDomain_flatten_perm (addrs : List Address) :
    (((groupByDomain addrs).map Prod.snd).flatten).Perm addrs := by
  suffices h : ∀ (l : List Address) (acc : List (String × List Address)),
      ((l.foldl insertAddr acc).map Prod.snd).flatten.Perm
        ((acc.map Prod.snd).flatten ++ l) by
    simpa using h addrs []
  intro l
  induction l with
  | nil => intro acc; simp
  | cons a rest ih =>
    intro acc
    refine (ih (insertAddr acc a)).trans ?_
    refine ((insertAddr_flatten_perm acc a).append_right rest).trans ?_
    have heq : ((acc.map Prod.snd).flatten ++ [a]) ++ rest
        = (acc.map Prod.snd).flatten ++ (a :: rest) := by simp
    rw [heq]

/-! ### Facts about the Verify entry point -/

theorem verifyRun_unfold (oracles : String → DomainOracle) (max : Nat)
    (addrs : List Address) :
    VerifyRun oracles max addrs =
      if (groupByDomain addrs).length = 0 then some ([], [])
      else if (if (groupByDomain addrs).length < max then (groupByDomain addrs).length
          else max) = 0 then none
      else
        some ((((groupByDomain addrs).map fun p => runBatch (oracles p.1) p.2).map
                 Prod.fst).flatten,
              (((groupByDomain addrs).map fun p => runBatch (oracles p.1) p.2).map
                 Prod.snd).flatten) := rfl

theorem verifyRun_eq (oracles : String → DomainOracle) (max : Nat) (addrs : List Address)
    (h : 1 ≤ max) :
    VerifyRun oracles max addrs =
      some ((((groupByDomain addrs).map fun p => runBatch (oracles p.1) p.2).map
               Prod.fst).flatten,
            (((groupByDomain addrs).map fun p => runBatch (oracles p.1) p.2).map
               Prod.snd).flatten) := by
  rw [verifyRun_unfold]
  by_cases h0 : (groupByDomain addrs).length = 0
  · rw [if_pos h0]
    rw [List.length_eq_zero] at h0
    rw [h0]
    rfl
  · rw [if_neg h0]
    have hw : (if (groupByDomain addrs).length < max then (groupByDomain addrs).length
        else max) ≠ 0 := by
      split
      · exact h0
      · omega
    rw [if_neg hw]

theorem verify_mem_batch (oracles : String → DomainOracle) (max : Nat) (addrs : List Address)
    (l : List Lookup) (lk : Lookup) (hv : Verify oracles max addrs = some l) (hm : lk ∈ l) :
    ∃ p ∈ groupByDomain addrs, lk ∈ (runBatch (oracles p.1) p.2).2 ∧ p.1 = lk.domain := by
  unfold Verify at hv
  rw [verifyRun_unfold] at hv
  by_cases h0 : (groupByDomain addrs).length = 0
  · rw [if_pos h0] at hv
    have hl : ([] : List Lookup) = l := by simpa using hv
    rw [← hl] at hm
    simp at hm
  · rw [if_neg h0] at hv
    by_cases hw : (if (groupByDomain addrs).length < max then (groupByDomain addrs).length
        else max) = 0
    · rw [if_pos hw] at hv
      simp at hv
    · rw [if_neg hw] at hv
      have hl : (((groupByDomain addrs).map fun p => runBatch (oracles p.1) p.2).map
          Prod.snd).flatten = l := by simpa using hv
      rw [← hl] at hm
      simp only [List.map_map, List.mem_flatten, List.mem_map] at hm
      obtain ⟨s, ⟨p, hp, hs⟩, hlk⟩ := hm
      rw [← hs] at hlk
      refine ⟨p, hp, hlk, ?_⟩
      have hta := runBatch_mem_domain (oracles p.1) p.2 lk hlk
      exact (groupByDomain_domains addrs p hp lk.toAddress hta).symm

theorem runAddrs_fullInbox (o : DomainOracle) (disp : Bool) (st : BatchState)
    (j : List Address) (lk : Lookup) (h : lk ∈ (runAddrs o true false disp st j).2)
    (hprobe : o.probe lk.address = some GoErr.fullInbox) :
    lk.fullInbox = true ∧ lk.deliverable = false ∧ lk.error = "" ∧ lk.errorDetails = "" := by
  induction j generalizing st with
  | nil => simp [runAddrs] at h
  | cons a rest ih =>
    simp only [runAddrs, List.mem_cons] at h
    rcases h with h | h
    · have haddr : lk.address = a.address := by rw [h]; rfl
      rw [haddr] at hprobe
      subst h
      simp [probeStep, mkLookup, errStr, hprobe, parseRCPTErr]
    · exact ih _ h

theorem runBatch_fullInbox (o : DomainOracle) (j : List Address) (lk : Lookup)
    (hconn : o.connect = none) (hnca : o.hasCatchAll = false)
    (h : lk ∈ (runBatch o j).2) (hprobe : o.probe lk.address = some GoErr.fullInbox) :
    lk.fullInbox = true ∧ lk.deliverable = false ∧ lk.error = "" ∧ lk.errorDetails = "" := by
  cases j with
  | nil => simp [runBatch] at h
  | cons a rest =>
    rw [runBatch_lookups, initState_connected o hconn] at h
    simp only [hnca, Bool.and_false] at h
    exact runAddrs_fullInbox o _ _ _ lk h hprobe

theorem runBatch_events (o : DomainOracle) (a : Address) (rest : List Address) :
    (runBatch o (a :: rest)).1 =
      [Event.openSession a.domain]
        ++ (if (initState o).2 then [Event.catchAllCheck a.domain] else [])
        ++ [Event.disposableCheck a.domain]
        ++ (runAddrs o (initState o).2 ((initState o).2 && o.hasCatchAll) o.isDisposable
              (initState o).1 (a :: rest)).1
        ++ (if (initState o).2 then [Event.closeSession a.domain] else []) := rfl

theorem runAddrs_events_kind (o : DomainOracle) (hs ca disp : Bool) (st : BatchState)
    (j : List Address) :
    ∀ e ∈ (runAddrs o hs ca disp st j).1,
      (∃ s, e = Event.probe s) ∨ ∃ s, e = Event.gravatarCheck s := by
  induction j generalizing st with
  | nil => simp [runAddrs]
  | cons a rest ih =>
    intro e he
    simp only [runAddrs, List.mem_append, List.mem_cons] at he
    rcases he with he | he | he
    · left
      refine ⟨a.address, ?_⟩
      split at he <;> simp_all
    · exact Or.inr ⟨a.address, he⟩
    · exact ih _ e he

theorem runAddrs_catchAll_no_probe (o : DomainOracle) (hs disp : Bool) (st : BatchState)
    (j : List Address) : ∀ s, Event.probe s ∉ (runAddrs o hs true disp st j).1 := by
  induction j generalizing st with
  | nil => simp [runAddrs]
  | cons a rest ih =>
    intro s hs'
    simp only [runAddrs, List.mem_append, List.mem_cons] at hs'
    rcases hs' with h | h | h
    · simp at h
    · exact absurd h (by simp)
    · exact ih _ s h

/-! ### Concrete fixtures used by witnesses and counterexamples -/

def addrA : Address := ⟨"a@x.io", "a", "x.io"⟩

def addrB : Address := ⟨"b@x.io", "b", "x.io"⟩

def catchAllOracle : DomainOracle :=
  ⟨none, true, false, fun _ => none, fun _ => false⟩

def plainOracle : DomainOracle :=
  ⟨none, false, false, fun _ => none, fun _ => false⟩

def fullInboxOracle : DomainOracle :=
  ⟨none, false, false, fun _ => some GoErr.fullInbox, fun _ => false⟩

def openHostAbsentOracle : DomainOracle :=
  ⟨some GoErr.noSuchHost, false, false, fun _ => none, fun _ => false⟩

def midBatchHostAbsentOracle : DomainOracle :=
  ⟨none, false, false,
    fun s => if s = "a@x.io" then some GoErr.noSuchHost else none,
    fun _ => false⟩

def genericProbeErrOracle : DomainOracle :=
  ⟨none, false, false,
    fun s => if s = "a@x.io" then some (GoErr.other "boom") else none,
    fun _ => false⟩

/-! ### Claim theorems -/

/-- C5: for every Lookup produced by `Verify`, if `catchAll` is true then
`deliverable` is true. -/
theorem verify_catchAll_deliverable (oracles : String → DomainOracle) (max : Nat)
    (addrs : List Address) (l : List Lookup) (lk : Lookup)
    (hv : Verify oracles max addrs = some l) (hm : lk ∈ l) (hca : lk.catchAll = true) :
    lk.deliverable = true := by
  obtain ⟨p, _, hlk, _⟩ := verify_mem_batch oracles max addrs l lk hv hm
  exact runBatch_catchAll_deliverable (oracles p.1) p.2 lk hlk hca

/-- The single Lookup produced for `addrA` under `catchAllOracle`. -/
def catchLk : Lookup :=
  ⟨"a@x.io", "a", "x.io", true, true, false, true, false, false, "", ""⟩

/-- Witness for C5: a catch-all domain with one address produces a Lookup with
`catchAll = true`, and the theorem yields `deliverable = true` on it. -/
theorem verify_catchAll_deliverable_witness :
    (Verify (fun _ => catchAllOracle) 1 [addrA] = some [catchLk] ∧
      catchLk ∈ [catchLk] ∧ catchLk.catchAll = true) ∧
    catchLk.deliverable = true :=
  ⟨⟨by decide, by decide, by decide⟩,
    verify_catchAll_deliverable (fun _ => catchAllOracle) 1 [addrA] [catchLk] catchLk
      (by decide) (by decide) (by decide)⟩

/-- C10: for every Lookup produced by `Verify`, `deliverable` and `fullInbox`
are never both true. -/
theorem verify_not_deliverable_and_fullInbox (oracles : String → DomainOracle) (max : Nat)
    (addrs : List Address) (l : List Lookup) (lk : Lookup)
    (hv : Verify oracles max addrs = some l) (hm : lk ∈ l) :
    ¬(lk.deliverable = true ∧ lk.fullInbox = true) := by
  obtain ⟨p, _, hlk, _⟩ := verify_mem_batch oracles max addrs l lk hv hm
  rcases runBatch_not_both (oracles p.1) p.2 lk hlk with hd | hf
  · intro hc; rw [hc.1] at hd; exact absurd hd (by simp)
  · intro hc; rw [hc.2] at hf; exact absurd hf (by simp)

/-- C9: on empty input, `Verify` returns the empty result immediately: no
collaborator event is recorded and zero workers are started. -/
theorem verify_empty_input (oracles : String → DomainOracle) (max : Nat) :
    VerifyRun oracles max [] = some ([], []) ∧ workersStarted max [] = 0 :=
  ⟨rfl, rfl⟩

/-- The single Lookup produced for `addrA` under `fullInboxOracle`. -/
def fullLk : Lookup :=
  ⟨"a@x.io", "a", "x.io", true, false, true, false, false, false, "", ""⟩

/-- Witness for C10: a failing probe with the mailbox-full condition yields a
Lookup on which the theorem denies `deliverable ∧ fullInbox`. -/
theorem verify_not_deliverable_and_fullInbox_witness :
    (Verify (fun _ => fullInboxOracle) 1 [addrA] = some [fullLk] ∧ fullLk ∈ [fullLk]) ∧
    ¬(fullLk.deliverable = true ∧ fullLk.fullInbox = true) :=
  ⟨⟨by decide, by decide⟩,
    verify_not_deliverable_and_fullInbox (fun _ => fullInboxOracle) 1 [addrA] [fullLk]
      fullLk (by decide) (by decide)⟩

/-- C2: a Lookup whose deliverability probe failed with the mailbox-full
condition has `fullInbox = true`, `deliverable = false`, and no error fields
set.  The hypotheses state that the probe was actually reached (a session was
obtained and the batch was not flagged catch-all) and failed that way. -/
theorem verify_fullInbox_flags (oracles : String → DomainOracle) (max : Nat)
    (addrs : List Address) (l : List Lookup) (lk : Lookup)
    (hv : Verify oracles max addrs = some l) (hm : lk ∈ l)
    (hconn : (oracles lk.domain).connect = none)
    (hnca : (oracles lk.domain).hasCatchAll = false)
    (hprobe : (oracles lk.domain).probe lk.address = some GoErr.fullInbox) :
    lk.fullInbox = true ∧ lk.deliverable = false ∧ lk.error = "" ∧ lk.errorDetails = "" := by
  obtain ⟨p, hp, hlk, hdom⟩ := verify_mem_batch oracles max addrs l lk hv hm
  rw [← hdom] at hconn hnca hprobe
  exact runBatch_fullInbox (oracles p.1) p.2 lk hconn hnca hlk hprobe

/-- Witness for C2: concrete mailbox-full run discharged through the
theorem. -/
theorem verify_fullInbox_flags_witness :
    (Verify (fun _ => fullInboxOracle) 1 [addrA] = some [fullLk] ∧ fullLk ∈ [fullLk] ∧
      fullInboxOracle.connect = none ∧ fullInboxOracle.hasCatchAll = false ∧
      fullInboxOracle.probe fullLk.address = some GoErr.fullInbox) ∧
    (fullLk.fullInbox = true ∧ fullLk.deliverable = false ∧ fullLk.error = "" ∧
      fullLk.errorDetails = "") :=
  ⟨⟨by decide, by decide, by decide, by decide, by decide⟩,
    verify_fullInbox_flags (fun _ => fullInboxOracle) 1 [addrA] [fullLk] fullLk
      (by decide) (by decide) (by decide) (by decide) (by decide)⟩

/-- C7: when a batch's domain is flagged catch-all (a session was obtained and
the catch-all check returned true), every Lookup of the batch has
`deliverable = true` and the per-address probe collaborator is never
invoked. -/
theorem worker_catchAll_skips_probe (o : DomainOracle) (a : Address) (rest : List Address)
    (hconn : o.connect = none) (hca : o.hasCatchAll = true) :
    (∀ lk ∈ (runBatch o (a :: rest)).2, lk.deliverable = true) ∧
    ∀ s, Event.probe s ∉ (runBatch o (a :: rest)).1 := by
  have hinit := initState_connected o hconn
  constructor
  · intro lk hlk
    rw [runBatch_lookups, hinit] at hlk
    simp only [hca, Bool.and_true] at hlk
    exact (runAddrs_catchAll_mem o _ _ _ _ lk hlk).1
  · intro s hmem
    have h1 : (initState o).1 = ⟨true, none, none⟩ := by rw [hinit]
    have h2 : (initState o).2 = true := by rw [hinit]
    rw [runBatch_events] at hmem
    rw [h1, h2, hca] at hmem
    simp only [Bool.and_self, if_true, List.mem_append, List.mem_singleton,
      List.mem_cons, List.not_mem_nil, or_false] at hmem
    rcases hmem with (((h | h) | h) | h) | h
    · exact absurd h (by simp)
    · exact absurd h (by simp)
    · exact absurd h (by simp)
    · exact runAddrs_catchAll_no_probe o _ _ _ _ s h
    · exact absurd h (by simp)

/-- Witness for C7: one catch-all batch, checked through the theorem. -/
theorem worker_catchAll_skips_probe_witness :
    (catchAllOracle.connect = none ∧ catchAllOracle.hasCatchAll = true) ∧
    ((∀ lk ∈ (runBatch catchAllOracle (addrA :: [addrB])).2, lk.deliverable = true) ∧
      ∀ s, Event.probe s ∉ (runBatch catchAllOracle (addrA :: [addrB])).1) :=
  ⟨⟨by decide, by decide⟩,
    worker_catchAll_skips_probe catchAllOracle addrA [addrB] (by decide) (by decide)⟩

/-- C6: for every batch whose session open succeeds, the session close is
performed exactly once, as the very last collaborator action of the batch
(hence after all addresses have been processed), on every execution path. -/
theorem worker_session_closed_once (o : DomainOracle) (a : Address) (rest : List Address)
    (hconn : o.connect = none) :
    ∃ pre, (runBatch o (a :: rest)).1 = pre ++ [Event.closeSession a.domain] ∧
      Event.closeSession a.domain ∉ pre := by
  have hinit := initState_connected o hconn
  refine ⟨[Event.openSession a.domain, Event.catchAllCheck a.domain,
      Event.disposableCheck a.domain]
      ++ (runAddrs o true (true && o.hasCatchAll) o.isDisposable ⟨true, none, none⟩
            (a :: rest)).1, ?_, ?_⟩
  · rw [runBatch_events, hinit]
    simp
  · intro hmem
    simp only [List.mem_append, List.mem_cons, List.not_mem_nil, or_false] at hmem
    rcases hmem with (h | h | h) | h
    · exact absurd h (by simp)
    · exact absurd h (by simp)
    · exact absurd h (by simp)
    · rcases runAddrs_events_kind o _ _ _ _ _ _ h with ⟨s, hs⟩ | ⟨s, hs⟩ <;> simp at hs

/-- Witness for C6: a two-address batch with a mid-batch probe failure still
closes its session exactly once, at the end. -/
theorem worker_session_closed_once_witness :
    (midBatchHostAbsentOracle.connect = none) ∧
    ∃ pre, (runBatch midBatchHostAbsentOracle (addrA :: [addrB])).1 =
        pre ++ [Event.closeSession addrA.domain] ∧
      Event.closeSession addrA.domain ∉ pre :=
  ⟨by decide,
    worker_session_closed_once midBatchHostAbsentOracle addrA [addrB] (by decide)⟩

/-- C1 amended: a Lookup with `hostExists = false` always has
`catchAll = false`; and when the host-absence was detected at session-open
time, every Lookup of the affected batch has `hostExists = false`,
`deliverable = false`, `fullInbox = false`, `catchAll = false` and no error
fields.  (After a mid-batch probe-time downgrade the remaining addresses are
still probed, so their Lookups need not satisfy the stronger property; see
the counterexample.) -/
theorem verify_hostAbsent_amended (oracles : String → DomainOracle) (max : Nat)
    (addrs : List Address) (l : List Lookup) (lk : Lookup)
    (hv : Verify oracles max addrs = some l) (hm : lk ∈ l) :
    (lk.hostExists = false → lk.catchAll = false) ∧
    (∀ e, (oracles lk.domain).connect = some e →
      (parseSTDErr e).1 = some GoErr.noSuchHost →
      lk.hostExists = false ∧ lk.deliverable = false ∧ lk.fullInbox = false ∧
        lk.catchAll = false ∧ lk.error = "" ∧ lk.errorDetails = "") := by
  obtain ⟨p, hp, hlk, hdom⟩ := verify_mem_batch oracles max addrs l lk hv hm
  constructor
  · intro hhe
    cases hca : lk.catchAll with
    | false => rfl
    | true =>
      have := runBatch_catchAll_hostExists (oracles p.1) p.2 lk hlk hca
      rw [this] at hhe
      exact absurd hhe (by simp)
  · intro e hc hcls
    rw [← hdom] at hc
    exact runBatch_hostAbsentOpen (oracles p.1) e p.2 lk hc hcls hlk

/-- The Lookup produced for `addrA` when its host is declared absent. -/
def absentLkA : Lookup :=
  ⟨"a@x.io", "a", "x.io", false, false, false, false, false, false, "", ""⟩

/-- The Lookup produced for `addrB` after the mid-batch downgrade triggered by
`addrA`: the host-exists flag is already false, yet the probe still ran and
succeeded. -/
def downgradedLkB : Lookup :=
  ⟨"b@x.io", "b", "x.io", false, true, false, false, false, false, "", ""⟩

/-- Witness for C1 (amended): a batch whose session open fails host-absent,
checked through the theorem. -/
theorem verify_hostAbsent_amended_witness :
    (Verify (fun _ => openHostAbsentOracle) 1 [addrA] = some [absentLkA] ∧
      absentLkA ∈ [absentLkA]) ∧
    ((absentLkA.hostExists = false → absentLkA.catchAll = false) ∧
      (∀ e, openHostAbsentOracle.connect = some e →
        (parseSTDErr e).1 = some GoErr.noSuchHost →
        absentLkA.hostExists = false ∧ absentLkA.deliverable = false ∧
          absentLkA.fullInbox = false ∧ absentLkA.catchAll = false ∧
          absentLkA.error = "" ∧ absentLkA.errorDetails = "")) :=
  ⟨⟨by decide, by decide⟩,
    verify_hostAbsent_amended (fun _ => openHostAbsentOracle) 1 [addrA] [absentLkA]
      absentLkA (by decide) (by decide)⟩

/-- Counterexample for C1 as stated: after `addrA`'s probe downgrades
`hostExists` mid-batch, `addrB` is still probed and its Lookup comes out with
`hostExists = false` and `deliverable = true`. -/
theorem verify_hostAbsent_cex :
    ¬ ∀ (l : List Lookup) (lk : Lookup),
        Verify (fun _ => midBatchHostAbsentOracle) 4 [addrA, addrB] = some l → lk ∈ l →
        lk.hostExists = false →
        lk.deliverable = false ∧ lk.fullInbox = false ∧ lk.catchAll = false ∧
          lk.error = "" ∧ lk.errorDetails = "" := by
  intro h
  have hbad := h [absentLkA, downgradedLkB] downgradedLkB (by decide) (by decide) (by decide)
  exact absurd hbad.1 (by decide)

/-! ### Counting the distinct domains -/

theorem insertAddr_keys (acc : List (String × List Address)) (a : Address) :
    (insertAddr acc a).map Prod.fst =
      if a.domain ∈ acc.map Prod.fst then acc.map Prod.fst
      else acc.map Prod.fst ++ [a.domain] := by
  induction acc with
  | nil => simp [insertAddr]
  | cons q rest ih =>
    obtain ⟨d, as⟩ := q
    simp only [insertAddr]
    split
    · next hd =>
      subst hd
      simp
    · next hd =>
      have hda : a.domain ≠ d := fun h => hd h.symm
      simp only [List.map_cons, ih, List.mem_cons]
      by_cases hmem : a.domain ∈ rest.map Prod.fst
      · simp [hmem, hda]
      · simp [hmem, hda]

theorem foldl_insertAddr_keys (l : List Address) (acc : List (String × List Address))
    (hacc : ((acc.map Prod.fst) : List String).Nodup) :
    (((l.foldl insertAddr acc).map Prod.fst) : List String).Nodup ∧
      ((l.foldl insertAddr acc).map Prod.fst).toFinset =
        (acc.map Prod.fst).toFinset ∪ (l.map Address.domain).toFinset := by
  induction l generalizing acc with
  | nil => exact ⟨hacc, by simp⟩
  | cons a rest ih =>
    have hkeys := insertAddr_keys acc a
    have hnodup : (((insertAddr acc a).map Prod.fst) : List String).Nodup := by
      rw [hkeys]
      by_cases hmem : a.domain ∈ acc.map Prod.fst
      · rwa [if_pos hmem]
      · rw [if_neg hmem]
        simp [List.nodup_append, hacc, List.disjoint_singleton, hmem]
    have hset : ((insertAddr acc a).map Prod.fst).toFinset =
        insert a.domain (acc.map Prod.fst).toFinset := by
      rw [hkeys]
      by_cases hmem : a.domain ∈ acc.map Prod.fst
      · rw [if_pos hmem]
        exact (Finset.insert_eq_self.mpr (List.mem_toFinset.mpr hmem)).symm
      · rw [if_neg hmem]
        ext x
        simp [or_comm]
    obtain ⟨h1, h2⟩ := ih (insertAddr acc a) hnodup
    refine ⟨h1, ?_⟩
    rw [List.foldl_cons] at *
    rw [h2, hset]
    ext x
    simp only [Finset.mem_union, Finset.mem_insert, List.mem_toFinset, List.map_cons,
      List.mem_cons]
    tauto

theorem groupByDomain_length (addrs : List Address) :
    (groupByDomain addrs).length = distinctDomainCount addrs := by
  obtain ⟨h1, h2⟩ := foldl_insertAddr_keys addrs [] (by simp)
  unfold groupByDomain
  have hlen : (addrs.foldl insertAddr []).length =
      ((addrs.foldl insertAddr []).map Prod.fst).length := by simp
  rw [hlen, ← List.toFinset_card_of_nodup h1, h2]
  simp [distinctDomainCount]

/-- C8: the number of workers started equals
`min(configuredMax, distinctDomainCount)`. -/
theorem verify_worker_count (max : Nat) (addrs : List Address) :
    workersStarted max addrs = min max (distinctDomainCount addrs) := by
  have hw : workersStarted max addrs =
      (if (groupByDomain addrs).length = 0 then 0
       else if (groupByDomain addrs).length < max then (groupByDomain addrs).length
       else max) := rfl
  rw [hw, groupByDomain_length]
  split
  · next h0 => omega
  · next h0 => split <;> omega

/-- C4 amended: provided at least one worker is configured, `Verify` returns
exactly one Lookup per input address — no drops and no duplicates, for any
domain distribution: the Lookups map back to a permutation of the input.
(With `maxWorkerCount = 0` and a nonempty input the drain blocks forever; see
the counterexample.) -/
theorem verify_count_amended (oracles : String → DomainOracle) (max : Nat)
    (addrs : List Address) (h : 1 ≤ max) :
    ∃ l, Verify oracles max addrs = some l ∧ l.length = addrs.length ∧
      (l.map Lookup.toAddress).Perm addrs := by
  refine ⟨(((groupByDomain addrs).map fun p => runBatch (oracles p.1) p.2).map
      Prod.snd).flatten, ?_, ?_, ?_⟩
  · unfold Verify
    rw [verifyRun_eq oracles max addrs h]
    rfl
  · have hperm := groupByDomain_flatten_perm addrs
    have hmap : ((((groupByDomain addrs).map fun p => runBatch (oracles p.1) p.2).map
        Prod.snd).flatten).map Lookup.toAddress =
        ((groupByDomain addrs).map Prod.snd).flatten := by
      rw [List.map_flatten, List.map_map, List.map_map]
      refine congrArg List.flatten ?_
      exact List.map_congr_left fun p _ => runBatch_toAddress (oracles p.1) p.2
    have := hperm.length_eq
    rw [← hmap, List.length_map] at this
    exact this
  · have hmap : ((((groupByDomain addrs).map fun p => runBatch (oracles p.1) p.2).map
        Prod.snd).flatten).map Lookup.toAddress =
        ((groupByDomain addrs).map Prod.snd).flatten := by
      rw [List.map_flatten, List.map_map, List.map_map]
      refine congrArg List.flatten ?_
      exact List.map_congr_left fun p _ => runBatch_toAddress (oracles p.1) p.2
    rw [hmap]
    exact groupByDomain_flatten_perm addrs

/-- Witness for C4 (amended): two same-domain addresses with one worker. -/
theorem verify_count_amended_witness :
    1 ≤ 1 ∧
    ∃ l, Verify (fun _ => plainOracle) 1 [addrA, addrB] = some l ∧
      l.length = [addrA, addrB].length ∧ (l.map Lookup.toAddress).Perm [addrA, addrB] :=
  ⟨by decide, verify_count_amended (fun _ => plainOracle) 1 [addrA, addrB] (by decide)⟩

/-- Counterexample for C4 as stated: with `maxWorkerCount = 0` and one
address, zero workers are started, nothing feeds the results channel, and the
drain blocks forever — `Verify` never returns a result list at all. -/
theorem verify_zero_workers_cex :
    Verify (fun _ => plainOracle) 0 [addrA] = none := by decide

/-! ### Persistence of the batch-scoped error pair -/

theorem runAddrs_carry (o : DomainOracle) (disp : Bool) (j : List Address) :
    ∀ (st : BatchState) (m : Nat) (lk : Lookup),
      (∀ k b, k ≤ m → j[k]? = some b → o.probe b.address = none) →
      ((runAddrs o true false disp st j).2)[m]? = some lk →
      lk.error = errStr st.basicErr ∧ lk.errorDetails = errStr st.detailErr := by
  induction j with
  | nil =>
    intro st m lk _ hl
    simp [runAddrs] at hl
  | cons a rest ih =>
    intro st m lk hnone hl
    have hpa : o.probe a.address = none := hnone 0 a (Nat.zero_le m) (by simp)
    have hstep : probeStep o true false st a = (st, true, false) := by
      simp [probeStep, hpa]
    simp only [runAddrs, hstep] at hl
    cases m with
    | zero =>
      simp only [List.getElem?_cons_zero, Option.some.injEq] at hl
      subst hl
      exact ⟨rfl, rfl⟩
    | succ m =>
      simp only [List.getElem?_cons_succ] at hl
      refine ih st m lk ?_ hl
      intro k b hk hb
      exact hnone (k + 1) b (Nat.succ_le_succ hk) (by simpa using hb)

theorem runAddrs_generic (o : DomainOracle) (disp : Bool) (j : List Address) :
    ∀ (st : BatchState) (i m : Nat) (a : Address) (msg : String),
      i ≤ m → j[i]? = some a → o.probe a.address = some (GoErr.other msg) →
      (∀ k b, i < k → k ≤ m → j[k]? = some b → o.probe b.address = none) →
      ∀ lk, ((runAddrs o true false disp st j).2)[m]? = some lk →
      lk.error = "unexpected RCPT response" ∧ lk.errorDetails = msg := by
  induction j with
  | nil =>
    intro st i m a msg _ hi
    simp at hi
  | cons a0 rest ih =>
    intro st i m a msg him hi hprobe hrest lk hl
    cases i with
    | zero =>
      have ha : a0 = a := by simpa using hi
      subst ha
      have hstep : probeStep o true false st a0 =
          (⟨st.hostExists, some (GoErr.other "unexpected RCPT response"),
            some (GoErr.other msg)⟩, false, false) := by
        simp [probeStep, hprobe, parseRCPTErr]
      simp only [runAddrs, hstep] at hl
      cases m with
      | zero =>
        simp only [List.getElem?_cons_zero, Option.some.injEq] at hl
        subst hl
        exact ⟨rfl, rfl⟩
      | succ m =>
        simp only [List.getElem?_cons_succ] at hl
        have hcarry := runAddrs_carry o disp rest
          ⟨st.hostExists, some (GoErr.other "unexpected RCPT response"),
            some (GoErr.other msg)⟩ m lk ?_ hl
        · simpa [errStr] using hcarry
        · intro k b hk hb
          exact hrest (k + 1) b (Nat.succ_pos k) (Nat.succ_le_succ hk) (by simpa using hb)
    | succ i =>
      cases m with
      | zero => exact absurd him (by omega)
      | succ m =>
        simp only [runAddrs] at hl
        rw [List.getElem?_cons_succ] at hl
        refine ih _ i m a msg (Nat.le_of_succ_le_succ him) (by simpa using hi) hprobe ?_ lk hl
        intro k b hk hkm hb
        exact hrest (k + 1) b (Nat.succ_lt_succ hk) (Nat.succ_le_succ hkm) (by simpa using hb)

/-- C3 amended: when the probe for the address at position `i` of a batch
fails with a generic error, the classified (summary, detail) pair is attached
to that address's Lookup — and it persists onto the Lookup of every
subsequently processed address of the batch whose own probe does not
overwrite the batch-scoped error variables (here: all probes up to position
`m` succeed), because `basicErr`/`detailErr` are batch-scoped, not
address-scoped. -/
theorem worker_generic_error_persists (o : DomainOracle) (j : List Address)
    (i m : Nat) (a : Address) (msg : String)
    (hconn : o.connect = none) (hnca : o.hasCatchAll = false)
    (him : i ≤ m) (hi : j[i]? = some a)
    (hprobe : o.probe a.address = some (GoErr.other msg))
    (hrest : ∀ k b, i < k → k ≤ m → j[k]? = some b → o.probe b.address = none)
    (lk : Lookup) (hl : ((runBatch o j).2)[m]? = some lk) :
    lk.error = "unexpected RCPT response" ∧ lk.errorDetails = msg := by
  cases j with
  | nil => simp at hi
  | cons a0 rest =>
    rw [runBatch_lookups, initState_connected o hconn] at hl
    simp only [hnca, Bool.and_false] at hl
    exact runAddrs_generic o _ _ _ i m a msg him hi hprobe hrest lk hl

/-- The Lookup produced for `addrA` under `genericProbeErrOracle`. -/
def genericLkA : Lookup :=
  ⟨"a@x.io", "a", "x.io", true, false, false, false, false, false,
    "unexpected RCPT response", "boom"⟩

/-- The Lookup produced for `addrB` in the same batch: its own probe
succeeded, yet it inherits `addrA`'s error pair. -/
def bleedLkB : Lookup :=
  ⟨"b@x.io", "b", "x.io", true, true, false, false, false, false,
    "unexpected RCPT response", "boom"⟩

/-- Witness for C3 (amended): `addrA`'s generic probe failure puts the pair on
`addrB`'s Lookup (position 1) even though `addrB`'s probe succeeded. -/
theorem worker_generic_error_persists_witness :
    (genericProbeErrOracle.connect = none ∧ genericProbeErrOracle.hasCatchAll = false ∧
      (0 : Nat) ≤ 1 ∧ ([addrA, addrB][0]? = some addrA) ∧
      genericProbeErrOracle.probe addrA.address = some (GoErr.other "boom") ∧
      ((runBatch genericProbeErrOracle [addrA, addrB]).2)[1]? = some bleedLkB) ∧
    (bleedLkB.error = "unexpected RCPT response" ∧ bleedLkB.errorDetails = "boom") :=
  ⟨⟨by decide, by decide, by decide, by decide, by decide, by decide⟩,
    worker_generic_error_persists genericProbeErrOracle [addrA, addrB] 0 1 addrA "boom"
      (by decide) (by decide) (by decide) (by decide) (by decide)
      (by
        intro k b hk hkm hb
        have hk1 : k = 1 := by omega
        subst hk1
        have hbeq : b = addrB := by simpa using hb.symm
        subst hbeq
        decide)
      bleedLkB (by decide)⟩

/-- Counterexample for C3 as stated: `addrB`'s Lookup, from the same batch,
does carry the (summary, detail) pair classified from `addrA`'s probe
failure. -/
theorem worker_generic_error_scope_cex :
    ¬ ∀ (l : List Lookup) (lk : Lookup),
        Verify (fun _ => genericProbeErrOracle) 4 [addrA, addrB] = some l → lk ∈ l →
        lk.address ≠ addrA.address →
        ¬(lk.error = "unexpected RCPT response" ∧ lk.errorDetails = "boom") := by
  intro h
  exact h [genericLkA, bleedLkB] bleedLkB (by decide) (by decide) (by decide)
    ⟨by decide, by decide⟩

end Trumail
